import Mathlib

/-!
Shallow embedding of the cached asset-plan subsystem
(`cargo/src/assets/plan.rs`): canonical serialization, cache-validity
determination (`CachedPlan::new`), conditional application
(`CachedPlan::apply`), cache persistence (`CachedPlan::save`), the
orchestrator `plan_for`, and the diagnostic projection `pretty_print`.

Filesystem state is passed explicitly.  External collaborators from the
workspace's `playdate` crates (the plan builder, the apply operation, the
flattening iterator and the build report) are not among the shown sources;
they are modelled from the spec where noted and otherwise abstracted as
parameters.
-/

namespace Boozook

/-- State of one path on disk: no file, a readable file with the given
content, or a file that exists but whose read fails with an I/O error. -/
inductive FileState where
  | absent
  | present (content : String)
  | unreadable
  deriving DecidableEq, Repr

/-- Error kinds surfaced by the embedded fallible operations
(`CargoResult` failure values relevant to this core). -/
inductive IoError where
  | readError (path : String)
  | writeError (path : String)
  | envError
  | planError
  deriving DecidableEq, Repr

/-- Explicit filesystem state: content of every path, plus which paths
fail on write (modelling an unwritable cache file). -/
structure FS where
  files : String → FileState
  writeFails : String → Bool

/-- `Path::try_exists`: true when a file is at the path, even if its
content cannot be read. -/
def FS.tryExists (fs : FS) (p : String) : Bool :=
  match fs.files p with
  | .absent => false
  | .present _ => true
  | .unreadable => true

/-- `std::fs::read_to_string`: the content of a readable file, an I/O
error otherwise. -/
def FS.readToString (fs : FS) (p : String) : Except IoError String :=
  match fs.files p with
  | .present content => .ok content
  | .absent => .error (.readError p)
  | .unreadable => .error (.readError p)

/-- `std::fs::write`: full overwrite, creating the file if needed; fails
on an unwritable path. -/
def FS.write (fs : FS) (p : String) (data : String) : Except IoError FS :=
  if fs.writeFails p then .error (.writeError p)
  else .ok { fs with files := fun q => if q = p then .present data else fs.files q }

/-- Observable side effects of the orchestrator, recorded as a trace so
that "no environment resolution and no cache-file read or write" is a
statement about the embedding. -/
inductive Effect where
  | envResolve
  | fsRead (path : String)
  | fsWrite (path : String)
  deriving DecidableEq, Repr

/-- Modelled from the spec: a rule expression of the external resolver
(`playdate::assets::resolver::Expr`, not among the shown sources); the
core uses only its `original()` text. -/
structure Expr where
  original : String
  deriving DecidableEq, Repr

/-- Modelled from the spec: a resolved source/target pair inside a
mapping (the `inc` values of the external plan type); the core uses only
`source()` and `target()`. -/
structure Inc where
  source : String
  target : String
  deriving DecidableEq, Repr

/-- Modelled from the spec: `Mapping` of the external
`playdate::assets::plan` module — Direct (`AsIs`), Transformed (`Into`)
and Fan-out (`ManyInto`); each carries the originating rule expression
pair.  For `ManyInto`, each source's `target` is its name relative to
the common target directory. -/
inductive Mapping where
  | AsIs (inc : Inc) (exprs : Expr × Expr)
  | Into (inc : Inc) (exprs : Expr × Expr)
  | ManyInto (sources : List Inc) (target : String) (exprs : Expr × Expr)
  deriving DecidableEq, Repr

/-- The `Plan` (`AssetsPlan`) as consumed by this core: its ordered
sequence of mappings (`as_inner()`). -/
abbrev AssetsPlan := List Mapping

/-- `Path::join` for a fan-out target directory and a relative name, as
used at `plan.rs:216` (`target.join(inc.target())`). -/
def pathJoin (dir rel : String) : String := dir ++ "/" ++ rel

/-- One flattened entry: the mapping kind tag together with the
`(target, source)` pair, mirroring the tuple shape destructured by the
sort key at `plan.rs:112` (`|(_, (p, _))|`, `p` being the target). -/
abbrev SerialEntry := String × String × String

/-- Modelled from the spec: `Plan::serializable_flatten` of the external
plan type (not among the shown sources) — flattens fan-out mappings into
individual `(target, source)` pairs, each fan-out source placed under the
common target directory with its relative name, in plan order. -/
def serializable_flatten (plan : AssetsPlan) : List SerialEntry :=
  plan.foldr
    (fun m acc =>
      (match m with
       | .AsIs inc _ => [("AsIs", inc.target, inc.source)]
       | .Into inc _ => [("Into", inc.target, inc.source)]
       | .ManyInto sources target _ =>
           sources.map fun inc => ("ManyInto", pathJoin target inc.target, inc.source)) ++ acc)
    []

/-- The sort key of `plan.rs:112`: the target path (its lossless string
form; paths are strings here). -/
def entryKey (e : SerialEntry) : String := e.2.1

/-- Lexicographic string order, stated on the character lists (the order
Rust's `String: Ord` realizes; identical to the standard string order,
in the form whose decision procedure computes by structural
recursion). -/
def strLe (a b : String) : Prop := a.data ≤ b.data

/-- Comparison used by the stable sort: key order only (no tie-break). -/
def entryLe (a b : SerialEntry) : Prop := strLe (entryKey a) (entryKey b)

instance : DecidableRel entryLe := fun a b =>
  inferInstanceAs (Decidable ((entryKey a).data ≤ (entryKey b).data))

instance : IsTotal SerialEntry entryLe :=
  ⟨fun a b => le_total (entryKey a).data (entryKey b).data⟩

instance : IsTrans SerialEntry entryLe := ⟨fun _ _ _ h h' => le_trans h h'⟩

/-- `serializable.sort_by_key(...)` at `plan.rs:112`: Rust's stable sort
by key; insertion sort with a non-strict comparison is stable in the same
sense (equal keys keep their input order). -/
def sortedEntries (plan : AssetsPlan) : List SerialEntry :=
  List.insertionSort entryLe (serializable_flatten plan)

/-- JSON string escaping (quote and backslash; the entries under test
contain no control characters). -/
def jsonEscapeChar (c : Char) : String :=
  if c = '"' then "\\\"" else if c = '\\' then "\\\\" else String.singleton c

/-- A JSON string literal. -/
def jsonString (s : String) : String :=
  "\"" ++ String.join (s.toList.map jsonEscapeChar) ++ "\""

/-- `serde_json` encoding of one flattened entry: tuples become JSON
arrays, paths become JSON strings. -/
def encodeEntry (e : SerialEntry) : String :=
  "[" ++ jsonString e.1 ++ ",[" ++ jsonString e.2.1 ++ "," ++ jsonString e.2.2 ++ "]]"

/-- `serde_json::to_string` of the sorted entry vector. -/
def encodeEntries (l : List SerialEntry) : String :=
  "[" ++ String.intercalate "," (l.map encodeEntry) ++ "]"

/-- The canonical text computed at `plan.rs:111-113`: flatten, stable
sort by target, encode. -/
def canonicalJson (plan : AssetsPlan) : String :=
  encodeEntries (sortedEntries plan)

/-- `Difference` (`plan.rs:253-258`). -/
inductive Difference where
  | Same
  | Different
  | Missing
  deriving DecidableEq, Repr

/-- `Difference::is_same` (`plan.rs:262`). -/
def Difference.is_same : Difference → Bool
  | .Same => true
  | _ => false

/-- Modelled from the spec: `BuildReport` of the external apply operation
(not among the shown sources) — per-mapping outcomes; the core consumes
only whether any mapping failed. -/
structure BuildReport where
  succeeded : List String
  failed : List String
  deriving DecidableEq, Repr

/-- Modelled from the spec: `BuildReport::has_errors` — true iff at least
one mapping failed. -/
def BuildReport.has_errors (r : BuildReport) : Bool := !r.failed.isEmpty

/-- `CachedPlan` (`plan.rs:93-105`). -/
structure CachedPlan where
  plan : AssetsPlan
  path : String
  difference : Difference
  serialized : Option String
  deriving DecidableEq, Repr

/-- `CachedPlan::new` (`plan.rs:110-134`): compute the canonical text;
classify against the file at `path` (`Missing` when absent, else compare
the file's content byte-for-byte); a failed read propagates (`?`); keep
the pending payload exactly when the verdict is not `Same`. -/
def CachedPlan.new (path : String) (plan : AssetsPlan) (fs : FS) :
    Except IoError CachedPlan :=
  let json := canonicalJson plan
  let differenceResult : Except IoError Difference :=
    if fs.tryExists path then
      match fs.readToString path with
      | .error e => .error e
      | .ok content => .ok (if content = json then .Same else .Different)
    else
      .ok .Missing
  match differenceResult with
  | .error e => .error e
  | .ok difference =>
      .ok { plan := plan, path := path, difference := difference,
            serialized := if difference.is_same then none else some json }

/-- `CachedPlan::save` (`plan.rs:138-144`): write the pending payload if
one is present; otherwise do nothing. -/
def CachedPlan.save (c : CachedPlan) (fs : FS) : Except IoError FS :=
  match c.serialized with
  | some data => fs.write c.path data
  | none => .ok fs

/-- `CachedPlan::apply` (`plan.rs:147-176`).  The external
`apply_build_plan` call is abstracted as its result (`applyResult`); a
failed materialization propagates (`?`).  After a report with no errors,
the pending payload (if any) is written to the cache path, and a failed
write propagates (`?`).  The filesystem state tracked here is the cache
file's; materialization under `dest` is the external operation's. -/
def CachedPlan.apply (c : CachedPlan) (applyResult : Except IoError BuildReport)
    (fs : FS) : Except IoError (BuildReport × FS) :=
  let cache := c.serialized
  match applyResult with
  | .error e => .error e
  | .ok report =>
      if !report.has_errors then
        match cache with
        | some data =>
            match fs.write c.path data with
            | .error e => .error e
            | .ok fs' => .ok (report, fs')
        | none => .ok (report, fs)
      else
        .ok (report, fs)

/-- An asset rule as declared in `metadata.assets` (opaque to this
core). -/
structure Rule where
  raw : String
  deriving DecidableEq, Repr

/-- The resolved environment (opaque to this core beyond being a value
the plan builder consumes). -/
abbrev Env := List (String × String)

/-- The filesystem reads performed by `CachedPlan::new` at a cache
path. -/
def CachedPlan.newTrace (path : String) (fs : FS) : List Effect :=
  if fs.tryExists path then [Effect.fsRead path] else []

/-- `plan_for` (`plan.rs:68-90`): `None` when `metadata.assets` is empty;
otherwise resolve the environment (`env.get()?`), build the plan via the
external builder, wrap it in a `CachedPlan` at the layout-derived cache
path, and override the verdict to `Missing` when the caller's
force-rebuild flag is set.  The lazy environment builder and the external
plan builder are abstracted as the `env` value and the `buildPlan`
function; the returned trace records environment resolution and
cache-file I/O. -/
def plan_for (assets : List Rule) (env : Except IoError Env)
    (buildPlan : Env → List Rule → Except IoError AssetsPlan)
    (path : String) (force_rebuild : Bool) (fs : FS) :
    Except IoError (Option CachedPlan) × List Effect :=
  if !assets.isEmpty then
    match env with
    | .error e => (.error e, [.envResolve])
    | .ok envVal =>
        match buildPlan envVal assets with
        | .error e => (.error e, [.envResolve])
        | .ok plan =>
            match CachedPlan.new path plan fs with
            | .error e => (.error e, .envResolve :: CachedPlan.newTrace path fs)
            | .ok cached =>
                let cached :=
                  if force_rebuild then { cached with difference := .Missing } else cached
                (.ok (some cached), .envResolve :: CachedPlan.newTrace path fs)
  else
    (.ok none, [])

/-- The section title of `pretty_print` (`plan.rs:194-195`):
`format!("rule: {} = {}", left.original(), right.original())`. -/
def title (exprs : Expr × Expr) : String :=
  "rule: " ++ exprs.1.original ++ " = " ++ exprs.2.original

/-- Modelled from the spec: `as_relative_to` of the path utilities (not
among the shown sources) — a path rendered relative to the root when it
lies inside it, unchanged otherwise. -/
def asRelativeTo (root p : String) : String :=
  if (root ++ "/").isPrefixOf p then p.drop (root ++ "/").length else p

/-- `row_columns` of `pretty_print` (`plan.rs:196-199`): the two columns
of one rendered row. -/
def row_columns (root : String) (target source : String) : String × String :=
  ("  " ++ asRelativeTo root target, asRelativeTo root source)

/-- The `sections` map of `pretty_print`, keyed by section title. -/
abbrev Sections := List (String × List (String × String))

/-- `HashMap::insert`: replaces the value of an existing key, inserts
otherwise (map semantics; the hash map's iteration order is not modelled,
only lookups are). -/
def sectionsInsert (k : String) (v : List (String × String)) : Sections → Sections
  | [] => [(k, v)]
  | (k', v') :: rest =>
      if k' = k then (k, v) :: rest else (k', v') :: sectionsInsert k v rest

/-- `HashMap` lookup on the sections map. -/
def lookupSection (k : String) : Sections → Option (List (String × String))
  | [] => none
  | (k', v) :: rest => if k' = k then some v else lookupSection k rest

/-- The section title a mapping is filed under (`plan.rs:203-219`). -/
def mappingTitle : Mapping → String
  | .AsIs _ exprs => title exprs
  | .Into _ exprs => title exprs
  | .ManyInto _ _ exprs => title exprs

/-- The rows a mapping contributes (`plan.rs:203-219`): one row for
`AsIs`/`Into`, one row per source for `ManyInto` with the joined
target. -/
def mappingRows (root : String) : Mapping → List (String × String)
  | .AsIs inc _ => [row_columns root inc.target inc.source]
  | .Into inc _ => [row_columns root inc.target inc.source]
  | .ManyInto sources target _ =>
      sources.map fun inc => row_columns root (pathJoin target inc.target) inc.source

/-- The sections map built by the loop at `plan.rs:201-221`: every
mapping's rows are `insert`ed under its title, in plan order. -/
def sections (root : String) (plan : AssetsPlan) : Sections :=
  plan.foldl (fun m mapping => sectionsInsert (mappingTitle mapping) (mappingRows root mapping) m) []

instance {ε α : Type} [DecidableEq ε] [DecidableEq α] : DecidableEq (Except ε α)
  | .ok a, .ok b => if h : a = b then .isTrue (by rw [h]) else .isFalse (by simp [h])
  | .error a, .error b => if h : a = b then .isTrue (by rw [h]) else .isFalse (by simp [h])
  | .ok _, .error _ => .isFalse (by simp)
  | .error _, .ok _ => .isFalse (by simp)

/-! Concrete values used by witnesses and counterexamples: the spec's
scenario 1 (one direct mapping `"sprite.png" -> "sprite.png"`) and
filesystem states around the cache path `"cache"`. -/

/-- An originating rule expression pair. -/
def eRule : Expr × Expr := (⟨"left"⟩, ⟨"right"⟩)

/-- One direct mapping, the spec's first concrete scenario. -/
def pEx : AssetsPlan := [.AsIs ⟨"sprite.png", "sprite.png"⟩ eRule]

/-- No cache file, all writes succeed. -/
def fsEmpty : FS := ⟨fun _ => .absent, fun _ => false⟩

/-- The cached plan constructed from `pEx` over `fsEmpty`. -/
def cEx : CachedPlan := ⟨pEx, "cache", .Missing, some (canonicalJson pEx)⟩

/-- A report with every mapping succeeded. -/
def repOk : BuildReport := ⟨["sprite.png"], []⟩

/-- A report with one failed mapping. -/
def repBad : BuildReport := ⟨[], ["sprite.png"]⟩

/-- The cache file holds exactly the canonical form of `pEx`. -/
def fsAfter : FS :=
  ⟨fun q => if q = "cache" then .present (canonicalJson pEx) else .absent, fun _ => false⟩

/-- The cache file holds stale content. -/
def fsStale : FS := ⟨fun q => if q = "cache" then .present "stale" else .absent, fun _ => false⟩

/-- The cache file exists but reading it fails. -/
def fsUnreadable : FS := ⟨fun q => if q = "cache" then .unreadable else .absent, fun _ => false⟩

/-- No cache file; writing the cache path fails. -/
def fsNoWrite : FS := ⟨fun _ => .absent, fun p => p == "cache"⟩

/-- Two direct mappings sharing one target, in one enumeration order. -/
def pDupA : AssetsPlan := [.AsIs ⟨"s1", "t"⟩ eRule, .AsIs ⟨"s2", "t"⟩ eRule]

/-- The same two mappings, enumerated in reverse. -/
def pDupB : AssetsPlan := [.AsIs ⟨"s2", "t"⟩ eRule, .AsIs ⟨"s1", "t"⟩ eRule]

/-- Two direct mappings with distinct targets. -/
def pDistinctA : AssetsPlan := [.AsIs ⟨"s1", "t1"⟩ eRule, .AsIs ⟨"s2", "t2"⟩ eRule]

/-- The same two mappings with distinct targets, enumerated in reverse. -/
def pDistinctB : AssetsPlan := [.AsIs ⟨"s2", "t2"⟩ eRule, .AsIs ⟨"s1", "t1"⟩ eRule]

/-- A declared asset rule. -/
def rEx : Rule := ⟨"img = sprite.png"⟩

/-! Inversion lemmas for `CachedPlan.new`. -/

theorem new_absent {path : String} {plan : AssetsPlan} {fs : FS}
    (h : fs.files path = .absent) :
    CachedPlan.new path plan fs = .ok ⟨plan, path, .Missing, some (canonicalJson plan)⟩ := by
  simp [CachedPlan.new, FS.tryExists, h, Difference.is_same]

theorem new_present {path : String} {plan : AssetsPlan} {fs : FS} {content : String}
    (h : fs.files path = .present content) :
    CachedPlan.new path plan fs =
      .ok ⟨plan, path,
           if content = canonicalJson plan then .Same else .Different,
           if content = canonicalJson plan then none else some (canonicalJson plan)⟩ := by
  by_cases hc : content = canonicalJson plan <;>
    simp [CachedPlan.new, FS.tryExists, FS.readToString, h, hc, Difference.is_same]

theorem new_unreadable {path : String} {plan : AssetsPlan} {fs : FS}
    (h : fs.files path = .unreadable) :
    CachedPlan.new path plan fs = .error (.readError path) := by
  simp [CachedPlan.new, FS.tryExists, FS.readToString, h]

theorem new_ok_fields {path : String} {plan : AssetsPlan} {fs : FS} {c : CachedPlan}
    (hnew : CachedPlan.new path plan fs = .ok c) :
    c.plan = plan ∧ c.path = path ∧
      c.serialized = (if c.difference.is_same then none else some (canonicalJson plan)) := by
  cases hfe : fs.files path with
  | absent =>
      rw [new_absent hfe] at hnew
      cases hnew
      simp [Difference.is_same]
  | present content =>
      rw [new_present hfe] at hnew
      cases hnew
      by_cases hc : content = canonicalJson plan <;> simp [hc, Difference.is_same]
  | unreadable =>
      rw [new_unreadable hfe] at hnew
      cases hnew

/-! Lookup behaviour of the sections map. -/

theorem lookup_sectionsInsert (k k' : String) (v : List (String × String)) (m : Sections) :
    lookupSection k (sectionsInsert k' v m) =
      if k' = k then some v else lookupSection k m := by
  induction m with
  | nil => simp [sectionsInsert, lookupSection]
  | cons hd tl ih =>
      obtain ⟨k0, v0⟩ := hd
      by_cases h0 : k0 = k'
      · subst h0
        by_cases hk : k0 = k <;> simp [sectionsInsert, lookupSection, hk]
      · by_cases hk : k0 = k
        · subst hk
          simp [sectionsInsert, lookupSection, h0, Ne.symm h0]
        · simp [sectionsInsert, lookupSection, h0, hk, ih]

theorem lookup_sections_foldl (root k : String) :
    ∀ (plan : AssetsPlan) (m : Sections),
      lookupSection k
          (plan.foldl
            (fun m mapping => sectionsInsert (mappingTitle mapping) (mappingRows root mapping) m) m) =
        match plan.reverse.find? (fun mp => mappingTitle mp == k) with
        | some mp => some (mappingRows root mp)
        | none => lookupSection k m := by
  intro plan
  induction plan with
  | nil => intro m; simp
  | cons x rest ih =>
      intro m
      simp only [List.foldl_cons, ih, List.reverse_cons, List.find?_append]
      cases hfind : rest.reverse.find? (fun mp => mappingTitle mp == k) with
      | some mp => simp
      | none =>
          by_cases ht : mappingTitle x = k
          · rw [List.find?_cons_of_pos _ (by simp [ht])]
            simp [lookup_sectionsInsert, ht]
          · rw [List.find?_cons_of_neg _ (by simp [ht])]
            simp [lookup_sectionsInsert, ht]

/-- C2: for every `BuildReport` with at least one failed mapping
(`has_errors()` true), persisting the cache after applying does nothing —
`apply` returns the report with the filesystem byte-for-byte unchanged
from its pre-apply state, so no cache file is created or rewritten. -/
theorem apply_leaves_cache_on_errors (c : CachedPlan) (report : BuildReport) (fs : FS)
    (h : report.has_errors = true) :
    c.apply (.ok report) fs = .ok (report, fs) := by
  simp [CachedPlan.apply, h]

/-- C2 witness: a report with a failed mapping leaves the empty
filesystem untouched. -/
theorem apply_leaves_cache_on_errors_witness :
    repBad.has_errors = true ∧ cEx.apply (.ok repBad) fsEmpty = .ok (repBad, fsEmpty) :=
  ⟨by decide, apply_leaves_cache_on_errors cEx repBad fsEmpty (by decide)⟩

/-- C3: during `CachedPlan` construction the verdict is exactly `Missing`
when no cache file exists at the computed path, `Same` when the file
exists with text byte-for-byte equal to the fresh canonical form, and
`Different` when it exists with differing text. -/
theorem new_difference_exact (path : String) (plan : AssetsPlan) (fs : FS) :
    (fs.files path = .absent →
      (CachedPlan.new path plan fs).map (fun c => c.difference) = .ok .Missing) ∧
    (∀ content, fs.files path = .present content →
      (CachedPlan.new path plan fs).map (fun c => c.difference) =
        .ok (if content = canonicalJson plan then .Same else .Different)) := by
  constructor
  · intro h
    rw [new_absent h]
    rfl
  · intro content h
    rw [new_present h]
    by_cases hc : content = canonicalJson plan <;> simp [hc, Except.map]

/-- C3 witness: absent file yields `Missing`; matching content yields
`Same`; stale content yields `Different`. -/
theorem new_difference_exact_witness :
    (CachedPlan.new "cache" pEx fsEmpty).map (fun c => c.difference) = .ok .Missing ∧
    (CachedPlan.new "cache" pEx fsAfter).map (fun c => c.difference) = .ok .Same ∧
    (CachedPlan.new "cache" pEx fsStale).map (fun c => c.difference) = .ok .Different := by
  refine ⟨(new_difference_exact "cache" pEx fsEmpty).1 rfl, ?_, ?_⟩
  · have h := (new_difference_exact "cache" pEx fsAfter).2 (canonicalJson pEx) rfl
    simpa using h
  · have h := (new_difference_exact "cache" pEx fsStale).2 "stale" rfl
    have hne : ¬("stale" = canonicalJson pEx) := by decide
    simpa [hne] using h

/-- C10: in the diagnostic projection, each rule title maps to the rows
of the last mapping in plan order carrying that title — earlier `AsIs`,
`Into` or `ManyInto` mappings filed under the same rule-expression pair
are replaced by `HashMap::insert` and silently dropped from the output. -/
theorem sections_last_mapping_wins (root : String) (plan : AssetsPlan) (k : String) :
    lookupSection k (sections root plan) =
      (plan.reverse.find? (fun m => mappingTitle m == k)).map (mappingRows root) := by
  rw [sections, lookup_sections_foldl root k plan []]
  cases hfind : plan.reverse.find? (fun mp => mappingTitle mp == k) with
  | some mp => simp
  | none => simp [lookupSection]

/-- C8 counterexample: with a cache file that exists but cannot be read,
`CachedPlan` construction does not degrade to `Missing` — it fails with
the propagated I/O error (`plan.rs:116`, the `?` on `read_to_string`). -/
theorem new_read_error_counterexample :
    CachedPlan.new "cache" pEx fsUnreadable = .error (.readError "cache") := by decide

/-- C8 amended: when the cache file exists at the computed path but
reading it fails, `CachedPlan` construction fails with the I/O error,
propagated to the caller; it does not degrade to a `Missing` verdict. -/
theorem new_read_error_propagates (path : String) (plan : AssetsPlan) (fs : FS)
    (h : fs.files path = .unreadable) :
    CachedPlan.new path plan fs = .error (.readError path) :=
  new_unreadable h

/-- C8 amended witness: the unreadable-cache filesystem makes
construction fail. -/
theorem new_read_error_propagates_witness :
    CachedPlan.new "plan.cache" pEx
        ⟨fun q => if q = "plan.cache" then .unreadable else .absent, fun _ => false⟩ =
      .error (.readError "plan.cache") :=
  new_read_error_propagates "plan.cache" pEx _ (by decide)

/-- C9 counterexample: a zero-error report followed by a failing cache
write makes `apply` return the write error rather than the successful
`BuildReport` (`plan.rs:158`, the `?` on `fs::write`). -/
theorem apply_write_error_counterexample :
    repOk.has_errors = false ∧
    cEx.apply (.ok repOk) fsNoWrite = .error (.writeError "cache") :=
  ⟨by decide, rfl⟩

/-- C9 amended: when the plan is applied with zero errors but the
subsequent write of the pending payload fails, `apply` propagates the
write error to the caller; the successful report is not returned (the
materialized assets, outside this state, remain in place). -/
theorem apply_write_error_propagates (c : CachedPlan) (report : BuildReport)
    (fs : FS) (data : String)
    (herr : report.has_errors = false)
    (hser : c.serialized = some data)
    (hw : fs.writeFails c.path = true) :
    c.apply (.ok report) fs = .error (.writeError c.path) := by
  simp [CachedPlan.apply, herr, hser, FS.write, hw]

/-- C9 amended witness: the concrete unwritable-cache filesystem makes
`apply` fail after a fully successful application. -/
theorem apply_write_error_propagates_witness :
    cEx.apply (.ok repOk) fsNoWrite = .error (.writeError cEx.path) :=
  apply_write_error_propagates cEx repOk fsNoWrite (canonicalJson pEx)
    (by decide) rfl (by decide)

/-- C1 counterexample: `CachedPlan::save` (`plan.rs:138-144`) writes the
pending payload whenever it is invoked — here on a freshly constructed
plan that was never applied, creating the cache file where none existed.
So there is a code path that writes the cache file for a plan that was
not applied. -/
theorem save_without_apply_writes :
    fsEmpty.files "cache" = .absent ∧
    (CachedPlan.new "cache" pEx fsEmpty).map
        (fun c => (c.save fsEmpty).map (fun fs => fs.files "cache")) =
      .ok (.ok (.present (canonicalJson pEx))) :=
  ⟨rfl, by decide⟩

/-- C1 amended: the cache write performed by `apply` happens only for a
plan whose application reported zero errors, and what it writes at the
cache path is exactly the canonical serialized form of that plan; the
standalone `save` method, however, writes the pending payload whenever
invoked, relying on its documented caller discipline ("save __after__
applying"), so the invariant holds for persistence performed via
`apply`. -/
theorem apply_writes_only_applied_success
    (path : String) (plan : AssetsPlan) (fs0 fs fs' : FS) (c : CachedPlan)
    (report : BuildReport) (q : String)
    (hnew : CachedPlan.new path plan fs0 = .ok c)
    (happly : c.apply (.ok report) fs = .ok (report, fs'))
    (hchanged : fs'.files q ≠ fs.files q) :
    report.has_errors = false ∧ q = path ∧ fs'.files q = .present (canonicalJson plan) := by
  obtain ⟨hplan, hpath, hser⟩ := new_ok_fields hnew
  cases herr : report.has_errors with
  | true =>
      simp [CachedPlan.apply, herr] at happly
      subst happly
      exact absurd rfl hchanged
  | false =>
      cases hs : c.serialized with
      | none =>
          simp [CachedPlan.apply, herr, hs] at happly
          subst happly
          exact absurd rfl hchanged
      | some data =>
          have hdata : data = canonicalJson plan := by
            rw [hs] at hser
            cases hd : c.difference.is_same <;> rw [hd] at hser <;> simp at hser
            exact hser
          by_cases hw : fs.writeFails c.path
          · simp [CachedPlan.apply, herr, hs, FS.write, hw] at happly
          · simp [CachedPlan.apply, herr, hs, FS.write, hw] at happly
            by_cases hq : q = c.path
            · refine ⟨rfl, hq.trans hpath, ?_⟩
              rw [← happly]
              simp [hq, hdata]
            · rw [← happly] at hchanged
              simp [hq] at hchanged

/-- C1 amended witness: one direct mapping, empty filesystem, successful
report; the only change `apply` makes is the canonical form at the cache
path. -/
theorem apply_writes_only_applied_success_witness :
    repOk.has_errors = false ∧ "cache" = "cache" ∧
      fsAfter.files "cache" = .present (canonicalJson pEx) :=
  apply_writes_only_applied_success "cache" pEx fsEmpty fsEmpty fsAfter cEx repOk "cache"
    (by decide) rfl (by decide)

/-! Inversion of the orchestrator's successful outcomes. -/

theorem plan_for_ok_some_inv {assets : List Rule} {env : Except IoError Env}
    {buildPlan : Env → List Rule → Except IoError AssetsPlan}
    {path : String} {force : Bool} {fs : FS} {c : CachedPlan}
    (h : (plan_for assets env buildPlan path force fs).1 = .ok (some c)) :
    ∃ plan cached, CachedPlan.new path plan fs = .ok cached ∧
      c = (if force then { cached with difference := .Missing } else cached) := by
  cases assets with
  | nil => simp [plan_for] at h
  | cons a as =>
      rw [plan_for.eq_def] at h
      simp only [List.isEmpty_cons, Bool.not_false, if_true] at h
      cases env with
      | error e => simp at h
      | ok envVal =>
          cases hbp : buildPlan envVal (a :: as) with
          | error e => simp [hbp] at h
          | ok plan =>
              simp only [hbp] at h
              cases hn : CachedPlan.new path plan fs with
              | error e => simp [hn] at h
              | ok cached =>
                  simp only [hn] at h
                  simp at h
                  exact ⟨plan, cached, hn, h.symm⟩

theorem plan_for_cons_not_none {a : Rule} {as : List Rule} {env : Except IoError Env}
    {buildPlan : Env → List Rule → Except IoError AssetsPlan}
    {path : String} {force : Bool} {fs : FS} :
    (plan_for (a :: as) env buildPlan path force fs).1 ≠ .ok none := by
  rw [plan_for.eq_def]
  simp only [List.isEmpty_cons, Bool.not_false, if_true]
  cases env with
  | error e => simp
  | ok envVal =>
      cases hbp : buildPlan envVal (a :: as) with
      | error e => simp [hbp]
      | ok plan =>
          cases hn : CachedPlan.new path plan fs with
          | error e => simp [hbp, hn]
          | ok cached => simp [hbp, hn]

/-- C4 counterexample: with force-rebuild set and a cache file equal to
the fresh canonical form, `plan_for` returns a `CachedPlan` whose verdict
is `Missing` (not `Same`) but whose pending payload is `none` — the
override at `plan.rs:83-85` rewrites the verdict without restoring the
payload that `new` dropped for the `Same` comparator verdict. -/
theorem force_same_drops_payload :
    (plan_for [rEx] (.ok []) (fun _ _ => .ok pEx) "cache" true fsAfter).1 =
      .ok (some ⟨pEx, "cache", .Missing, none⟩) := by decide

/-- C4 amended: for every `CachedPlan` returned by `plan_for` with the
force-rebuild flag unset, the pending payload is present iff the verdict
is not `Same`; when the flag is set, payload presence still reflects the
comparator's pre-override verdict, so a force-overridden `Same` verdict
carries `Missing` with no payload. -/
theorem plan_for_payload_iff_not_same (assets : List Rule) (env : Except IoError Env)
    (buildPlan : Env → List Rule → Except IoError AssetsPlan)
    (path : String) (fs : FS) (c : CachedPlan)
    (h : (plan_for assets env buildPlan path false fs).1 = .ok (some c)) :
    c.serialized.isSome = true ↔ c.difference.is_same = false := by
  obtain ⟨plan, cached, hn, hc⟩ := plan_for_ok_some_inv h
  simp only [if_neg Bool.false_ne_true] at hc
  subst hc
  obtain ⟨-, -, hser⟩ := new_ok_fields hn
  rw [hser]
  cases hd : c.difference.is_same <;> simp [hd]

/-- C4 amended witness: without force-rebuild, a missing cache file
yields a non-`Same` verdict with the payload retained. -/
theorem plan_for_payload_iff_not_same_witness :
    cEx.serialized.isSome = true ↔ cEx.difference.is_same = false :=
  plan_for_payload_iff_not_same [rEx] (.ok []) (fun _ _ => .ok pEx) "cache" fsEmpty cEx
    (by decide)

/-- C5: `plan_for` returns `None` iff the project declares no asset
rules; the empty-rules path performs no environment resolution and no
cache-file read or write (empty effect trace); and a successful outcome
on non-empty rules is always `Some` cached plan. -/
theorem plan_for_empty_rules_iff (assets : List Rule) (env : Except IoError Env)
    (buildPlan : Env → List Rule → Except IoError AssetsPlan)
    (path : String) (force : Bool) (fs : FS) :
    ((plan_for assets env buildPlan path force fs).1 = .ok none ↔ assets = []) ∧
    (assets = [] → plan_for assets env buildPlan path force fs = (.ok none, [])) ∧
    (∀ r, assets ≠ [] → (plan_for assets env buildPlan path force fs).1 = .ok r →
      ∃ c, r = some c) := by
  refine ⟨?_, ?_, ?_⟩
  · cases assets with
    | nil => simp [plan_for]
    | cons a as =>
        constructor
        · intro h
          exact absurd h plan_for_cons_not_none
        · intro h
          exact absurd h (by simp)
  · intro h
    subst h
    simp [plan_for]
  · intro r hne h
    cases assets with
    | nil => exact absurd rfl hne
    | cons a as =>
        cases r with
        | none => exact absurd h plan_for_cons_not_none
        | some c => exact ⟨c, rfl⟩

/-- C5 witness: empty rules give `None` with no effects; one declared
rule gives `Some` cached plan. -/
theorem plan_for_empty_rules_iff_witness :
    plan_for [] (.ok []) (fun _ _ => .ok pEx) "cache" false fsEmpty = (.ok none, []) ∧
    (∃ c, (some cEx : Option CachedPlan) = some c) :=
  ⟨(plan_for_empty_rules_iff [] (.ok []) (fun _ _ => .ok pEx) "cache" false fsEmpty).2.1 rfl,
   (plan_for_empty_rules_iff [rEx] (.ok []) (fun _ _ => .ok pEx) "cache" false
       fsEmpty).2.2 (some cEx) (by simp) (by decide)⟩

/-- C7: after a `CachedPlan` is applied with zero errors (write
included), reconstructing from the same logical plan at the same cache
path over the resulting filesystem yields the verdict `Same` — never a
spurious `Different` or `Missing`. -/
theorem apply_then_reconstruct_same (path : String) (plan : AssetsPlan)
    (fs fs' : FS) (c : CachedPlan) (report : BuildReport)
    (hnew : CachedPlan.new path plan fs = .ok c)
    (herr : report.has_errors = false)
    (happly : c.apply (.ok report) fs = .ok (report, fs')) :
    (CachedPlan.new path plan fs').map (fun x => x.difference) = .ok .Same := by
  cases hfe : fs.files path with
  | absent =>
      rw [new_absent hfe] at hnew
      cases hnew
      by_cases hw : fs.writeFails path
      · simp [CachedPlan.apply, herr, FS.write, hw] at happly
      · simp [CachedPlan.apply, herr, FS.write, hw] at happly
        have hfile : fs'.files path = .present (canonicalJson plan) := by
          rw [← happly]
          simp
        rw [new_present hfile]
        simp [Except.map]
  | present content =>
      rw [new_present hfe] at hnew
      cases hnew
      by_cases hc : content = canonicalJson plan
      · simp [CachedPlan.apply, herr, hc] at happly
        have hfile : fs'.files path = .present content := by
          rw [← happly]
          exact hfe
        rw [new_present hfile]
        simp [hc, Except.map]
      · by_cases hw : fs.writeFails path
        · simp [CachedPlan.apply, herr, hc, FS.write, hw] at happly
        · simp [CachedPlan.apply, herr, hc, FS.write, hw] at happly
          have hfile : fs'.files path = .present (canonicalJson plan) := by
            rw [← happly]
            simp
          rw [new_present hfile]
          simp [Except.map]
  | unreadable =>
      rw [new_unreadable hfe] at hnew
      cases hnew

/-- C7 witness: the spec's first scenario — missing cache, one direct
mapping, successful apply — reconstructs to `Same`. -/
theorem apply_then_reconstruct_same_witness :
    (CachedPlan.new "cache" pEx fsAfter).map (fun x => x.difference) = .ok .Same :=
  apply_then_reconstruct_same "cache" pEx fsEmpty fsAfter cEx repOk
    (by decide) (by decide) rfl

/-! Order independence of canonicalization. -/

theorem string_data_inj {a b : String} (h : a.data = b.data) : a = b :=
  String.ext h

/-- The strict key order, used to show sorted permutations with distinct
keys coincide. -/
def entryLt (a b : SerialEntry) : Prop := (entryKey a).data < (entryKey b).data

instance : IsAntisymm SerialEntry entryLt := ⟨fun _ _ h1 h2 => (lt_asymm h1 h2).elim⟩

/-- C6 counterexample: the same multiset of flattened `(target, source)`
pairs — one plan enumerating the two sources of a shared target in
reverse order — canonicalizes to different bytes: the sort at
`plan.rs:112` is stable on the target key alone, with no tie-break by
source path. -/
theorem canonical_not_order_independent :
    List.Perm (serializable_flatten pDupA) (serializable_flatten pDupB) ∧
    canonicalJson pDupA ≠ canonicalJson pDupB := by
  constructor
  · have h1 : serializable_flatten pDupA = [("AsIs", "t", "s1"), ("AsIs", "t", "s2")] := by
      decide
    have h2 : serializable_flatten pDupB = [("AsIs", "t", "s2"), ("AsIs", "t", "s1")] := by
      decide
    rw [h1, h2]
    exact List.Perm.swap _ _ _
  · decide

/-- C6 amended: canonicalization is order-independent for plans whose
flattened pairs are a permutation of each other, provided no two
distinct flattened pairs share a target path — the sort is stable by
target only, so equal-target pairs retain enumeration order and are the
one exception to order independence. -/
theorem canonical_perm_distinct_targets (p1 p2 : AssetsPlan)
    (hperm : List.Perm (serializable_flatten p1) (serializable_flatten p2))
    (hnd : (serializable_flatten p1).Pairwise fun a b => entryKey a ≠ entryKey b) :
    canonicalJson p1 = canonicalJson p2 := by
  have hp1 := List.perm_insertionSort entryLe (serializable_flatten p1)
  have hp2 := List.perm_insertionSort entryLe (serializable_flatten p2)
  have hs1 := List.sorted_insertionSort entryLe (serializable_flatten p1)
  have hs2 := List.sorted_insertionSort entryLe (serializable_flatten p2)
  have hnd2 : (serializable_flatten p2).Pairwise fun a b => entryKey a ≠ entryKey b :=
    (hperm.pairwise_iff (fun h => h.symm)).mp hnd
  have hnds1 :
      (List.insertionSort entryLe (serializable_flatten p1)).Pairwise
        fun a b => entryKey a ≠ entryKey b :=
    (hp1.pairwise_iff (fun h => h.symm)).mpr hnd
  have hnds2 :
      (List.insertionSort entryLe (serializable_flatten p2)).Pairwise
        fun a b => entryKey a ≠ entryKey b :=
    (hp2.pairwise_iff (fun h => h.symm)).mpr hnd2
  have hlt1 : (List.insertionSort entryLe (serializable_flatten p1)).Pairwise entryLt :=
    List.Pairwise.imp₂
      (fun _ _ hle hne => lt_of_le_of_ne hle fun hd => hne (string_data_inj hd)) hs1 hnds1
  have hlt2 : (List.insertionSort entryLe (serializable_flatten p2)).Pairwise entryLt :=
    List.Pairwise.imp₂
      (fun _ _ hle hne => lt_of_le_of_ne hle fun hd => hne (string_data_inj hd)) hs2 hnds2
  have heq :
      List.insertionSort entryLe (serializable_flatten p1) =
        List.insertionSort entryLe (serializable_flatten p2) :=
    List.eq_of_perm_of_sorted (hp1.trans (hperm.trans hp2.symm)) hlt1 hlt2
  rw [canonicalJson, canonicalJson, sortedEntries, sortedEntries, heq]

/-- C6 amended witness: two direct mappings with distinct targets,
enumerated in opposite orders, canonicalize identically. -/
theorem canonical_perm_distinct_targets_witness :
    canonicalJson pDistinctA = canonicalJson pDistinctB :=
  canonical_perm_distinct_targets pDistinctA pDistinctB
    (by
      have h1 : serializable_flatten pDistinctA =
          [("AsIs", "t1", "s1"), ("AsIs", "t2", "s2")] := by decide
      have h2 : serializable_flatten pDistinctB =
          [("AsIs", "t2", "s2"), ("AsIs", "t1", "s1")] := by decide
      rw [h1, h2]
      exact List.Perm.swap _ _ _)
    (by decide)

end Boozook
